import Mathlib

/-!
Verification of the gym-workout logger (`src/Gym_blogger/gym_workout.py`).

The development shallowly embeds the data-management core of the program:
the backing CSV file, `load_data` / `save_data` (with the `st.cache_data`
memoization), `add_workout_entry`, `delete_rows_by_ids`,
`get_weekly_summary`, and the sorted full-history view.

Modelling conventions:
* pandas cell values are `String`s in the file; a loaded table is a list of
  typed `Row`s.  An empty CSV cell is read by pandas as NaN / missing; we
  model a missing string value as `Option.none`.
* Python `float` columns (`weight`, `volume`) are modelled by `ℚ`; the
  claims under study are stated "up to floating-point rounding", which the
  exact rational model subsumes.
* `uuid.uuid4()` and `datetime.now()` are nondeterministic; the operations
  take the drawn id stream and timestamp as explicit parameters.
* The calendar arithmetic (`date.toordinal`, `date.fromordinal`,
  `date.isocalendar`, used by `strftime("%V")` and `timedelta`
  subtraction) is ported from CPython's `datetime` module.
-/

namespace GymWorkout

/-! ### Decimal digits: printing and parsing -/

/-- The character for a single decimal digit `n < 10`. -/
def digitChar (n : Nat) : Char := Char.ofNat (48 + n)

/-- Numeric value of a decimal digit character. -/
def digitVal (c : Char) : Option Nat :=
  if 48 ≤ c.toNat ∧ c.toNat ≤ 57 then some (c.toNat - 48) else none

/-- Worker for `printNat`, structurally recursive on a fuel bound so
that it evaluates by kernel reduction. -/
def printNatAux : Nat → Nat → List Char
  | 0, _ => []
  | fuel + 1, n =>
    if n < 10 then [digitChar n]
    else printNatAux fuel (n / 10) ++ [digitChar (n % 10)]

/-- Decimal representation of a natural number, most significant digit
first (the output of Python's `str` on a nonnegative int). -/
def printNat (n : Nat) : List Char := printNatAux (n + 1) n

theorem printNatAux_congr :
    ∀ (f₁ f₂ n : Nat), n < f₁ → n < f₂ →
      printNatAux f₁ n = printNatAux f₂ n := by
  intro f₁
  induction f₁ with
  | zero => intro f₂ n h₁ _; omega
  | succ g₁ ih =>
    intro f₂ n h₁ h₂
    cases f₂ with
    | zero => omega
    | succ g₂ =>
      rw [printNatAux, printNatAux]
      by_cases h : n < 10
      · rw [if_pos h, if_pos h]
      · rw [if_neg h, if_neg h,
          ih g₂ (n / 10)
            (Nat.lt_of_lt_of_le (Nat.div_lt_self (by omega) (by omega))
              (by omega))
            (Nat.lt_of_lt_of_le (Nat.div_lt_self (by omega) (by omega))
              (by omega))]

/-- The defining recurrence of `printNat`. -/
theorem printNat_eq (n : Nat) :
    printNat n =
      if n < 10 then [digitChar n]
      else printNat (n / 10) ++ [digitChar (n % 10)] := by
  rw [printNat, printNatAux]
  by_cases h : n < 10
  · rw [if_pos h, if_pos h]
  · rw [if_neg h, if_neg h, printNat,
      printNatAux_congr n (n / 10 + 1) (n / 10)
        (Nat.lt_of_lt_of_le (Nat.div_lt_self (by omega) (by omega)) (by omega))
        (by omega)]

/-- Fold decimal digit characters onto an accumulator; fails on the first
non-digit character. -/
def parseDigitsAux : List Char → Nat → Option Nat
  | [], acc => some acc
  | c :: cs, acc =>
    match digitVal c with
    | some d => parseDigitsAux cs (acc * 10 + d)
    | none => none

/-- Parse a nonempty all-digit string as a natural number. -/
def parseNat (l : List Char) : Option Nat :=
  if l = [] then none else parseDigitsAux l 0

/-- Left-pad a digit string with zeros to width `k` (zero padding of
`strftime` fields and of decimal fraction parts). -/
def padLeft (l : List Char) (k : Nat) : List Char :=
  List.replicate (k - l.length) '0' ++ l

theorem digitVal_digitChar {n : Nat} (h : n < 10) :
    digitVal (digitChar n) = some n := by
  interval_cases n <;> decide

theorem digitChar_mem_range {n : Nat} (h : n < 10) :
    48 ≤ (digitChar n).toNat ∧ (digitChar n).toNat ≤ 57 := by
  interval_cases n <;> decide

theorem printNat_ne_nil (n : Nat) : printNat n ≠ [] := by
  rw [printNat_eq]
  split
  · simp
  · simp

theorem printNat_all_digits (n : Nat) :
    ∀ c ∈ printNat n, ∃ d, d < 10 ∧ c = digitChar d := by
  induction n using Nat.strong_induction_on with
  | _ n ih =>
    rw [printNat_eq]
    by_cases h : n < 10
    · rw [if_pos h]
      simp only [List.mem_singleton]
      rintro c rfl
      exact ⟨n, h, rfl⟩
    · rw [if_neg h]
      simp only [List.mem_append, List.mem_singleton]
      rintro c (hc | rfl)
      · exact ih (n / 10) (Nat.div_lt_self (by omega) (by omega)) c hc
      · exact ⟨n % 10, Nat.mod_lt _ (by omega), rfl⟩

theorem parseDigitsAux_append (l₁ l₂ : List Char) (acc : Nat) :
    parseDigitsAux (l₁ ++ l₂) acc =
      (parseDigitsAux l₁ acc).bind (parseDigitsAux l₂) := by
  induction l₁ generalizing acc with
  | nil => simp [parseDigitsAux]
  | cons c cs ih =>
    simp only [List.cons_append, parseDigitsAux]
    cases digitVal c with
    | none => simp
    | some d => simp [ih]

theorem parseDigitsAux_printNat (n acc : Nat) :
    parseDigitsAux (printNat n) acc =
      some (acc * 10 ^ (printNat n).length + n) := by
  induction n using Nat.strong_induction_on generalizing acc with
  | _ n ih =>
    rw [printNat_eq]
    by_cases h : n < 10
    · rw [if_pos h]
      simp [parseDigitsAux, digitVal_digitChar h]
    · rw [if_neg h]
      have ihd := ih (n / 10) (Nat.div_lt_self (by omega) (by omega))
      simp only [parseDigitsAux_append, ihd, Option.some_bind,
        parseDigitsAux, digitVal_digitChar (Nat.mod_lt n (by omega)),
        List.length_append, List.length_singleton]
      congr 1
      have expand : acc * 10 ^ ((printNat (n / 10)).length + 1)
          = acc * 10 ^ (printNat (n / 10)).length * 10 := by ring
      rw [expand]
      omega

theorem parseNat_printNat (n : Nat) : parseNat (printNat n) = some n := by
  rw [parseNat, if_neg (printNat_ne_nil n), parseDigitsAux_printNat]
  simp

theorem parseDigitsAux_replicate_zero (k : Nat) (l : List Char) :
    parseDigitsAux (List.replicate k '0' ++ l) 0 = parseDigitsAux l 0 := by
  induction k with
  | zero => simp
  | succ k ih =>
    simpa [List.replicate_succ, parseDigitsAux, digitVal] using ih

theorem parseNat_padLeft (n k : Nat) :
    parseNat (padLeft (printNat n) k) = some n := by
  rw [parseNat, padLeft, if_neg (by simp [printNat_ne_nil n]),
    parseDigitsAux_replicate_zero]
  have := parseDigitsAux_printNat n 0
  simpa using this

theorem printNat_injective {a b : Nat} (h : printNat a = printNat b) :
    a = b := by
  have ha := parseNat_printNat a
  have hb := parseNat_printNat b
  rw [h, hb] at ha
  exact (Option.some_injective _ ha).symm

theorem printNat_length_le {n k : Nat} (hk : 1 ≤ k) (h : n < 10 ^ k) :
    (printNat n).length ≤ k := by
  induction n using Nat.strong_induction_on generalizing k with
  | _ n ih =>
    rw [printNat_eq]
    by_cases hn : n < 10
    · rw [if_pos hn]
      simpa using hk
    · rw [if_neg hn]
      simp only [List.length_append, List.length_singleton]
      have hk2 : 2 ≤ k := by
        by_contra hc
        have hk1 : k = 1 := by omega
        subst hk1
        simp at h
        omega
      have hdiv : n / 10 < 10 ^ (k - 1) := by
        have h10 : (10 : Nat) ^ k = 10 ^ (k - 1) * 10 := by
          conv_lhs => rw [show k = (k - 1) + 1 by omega]
          ring
        rw [h10] at h
        omega
      have := @ih (n / 10) (Nat.div_lt_self (by omega) (by omega))
        (k - 1) (by omega) hdiv
      omega

theorem padLeft_length {l : List Char} {k : Nat} (h : l.length ≤ k) :
    (padLeft l k).length = k := by
  simp [padLeft]
  omega

theorem mem_padLeft {c : Char} {l : List Char} {k : Nat}
    (h : c ∈ padLeft l k) : c = '0' ∨ c ∈ l := by
  rcases List.mem_append.mp h with h | h
  · exact Or.inl (List.eq_of_mem_replicate h)
  · exact Or.inr h

/-! ### Splitting a character list on a separator -/

/-- Split a character list at every occurrence of `sep` (the behaviour of
Python's `str.split(sep)` for a single-character separator). -/
def splitSep (sep : Char) : List Char → List (List Char)
  | [] => [[]]
  | c :: cs =>
    let r := splitSep sep cs
    if c = sep then [] :: r
    else
      match r with
      | h :: t => (c :: h) :: t
      | [] => [[c]]

theorem splitSep_ne_nil (sep : Char) (l : List Char) :
    splitSep sep l ≠ [] := by
  induction l with
  | nil => simp [splitSep]
  | cons c cs ih =>
    rw [splitSep]
    split
    · simp
    · match hr : splitSep sep cs with
      | h :: t => simp
      | [] => exact absurd hr ih

theorem splitSep_no_sep {sep : Char} {l : List Char} (h : sep ∉ l) :
    splitSep sep l = [l] := by
  induction l with
  | nil => rfl
  | cons c cs ih =>
    rw [splitSep]
    have hc : c ≠ sep := fun hc => h (hc ▸ List.mem_cons_self c cs)
    rw [if_neg hc]
    rw [ih (fun hm => h (List.mem_cons_of_mem c hm))]

theorem splitSep_append {sep : Char} {l₁ : List Char} (l₂ : List Char)
    (h : sep ∉ l₁) :
    splitSep sep (l₁ ++ sep :: l₂) = l₁ :: splitSep sep l₂ := by
  induction l₁ with
  | nil => simp [splitSep]
  | cons c cs ih =>
    have hc : c ≠ sep := fun hc => h (hc ▸ List.mem_cons_self c cs)
    rw [List.cons_append, splitSep, if_neg hc,
      ih (fun hm => h (List.mem_cons_of_mem c hm))]

/-! ### Integers and decimal fractions: printing and parsing

`printInt` models Python's `str` on an int (pandas serialization of the
int64 columns `set_num` and `reps`); `printRat` models the `repr` of a
Python float with a finite decimal expansion, always printed with a
decimal point (pandas serialization of the float64 columns `weight` and
`volume`).  `parseRat` models the numeric parser behind
`pd.to_numeric` / `read_csv` type inference on the canonical decimal
forms these serializers emit; a string it rejects is a malformed numeric
cell. -/

def printInt (i : Int) : List Char :=
  if i < 0 then '-' :: printNat i.natAbs else printNat i.natAbs

def parseInt (l : List Char) : Option Int :=
  match l with
  | [] => none
  | c :: cs =>
    if c = '-' then
      match parseNat cs with
      | some n => some (-(n : Int))
      | none => none
    else
      match parseNat (c :: cs) with
      | some n => some ((n : Int))
      | none => none

/-- Parse an unsigned decimal: either all digits, or digits `.` digits.
The value is assembled with `mkRat` over the integer parts (the value
`ip + fp / 10 ^ |fp|`). -/
def parseURat (l : List Char) : Option ℚ :=
  match splitSep '.' l with
  | [ip] =>
    match parseNat ip with
    | some n => some (mkRat (n : Int) 1)
    | none => none
  | [ip, fp] =>
    match parseNat ip, parseNat fp with
    | some i, some f =>
      some (mkRat ((i * 10 ^ fp.length + f : Nat) : Int) (10 ^ fp.length))
    | _, _ => none
  | _ => none

def parseRat (l : List Char) : Option ℚ :=
  match l with
  | [] => none
  | c :: cs =>
    if c = '-' then
      match parseURat cs with
      | some q => some (-q)
      | none => none
    else parseURat (c :: cs)

/-- Number of decimal digits used to print a fraction with denominator
`den`: the least `k ≥ 1` with `den ∣ 10 ^ k`, defaulting to 1.  Every
Python float is a dyadic rational, so for every value the program stores
such a `k` exists. -/
def decExp (den : Nat) : Nat :=
  match (List.range 40).find? (fun k => 10 ^ (k + 1) % den == 0) with
  | some k => k + 1
  | none => 1

/-- `q` has a finite decimal expansion captured by `decExp` (true of every
Python float). -/
def FinDec (q : ℚ) : Prop := (q.den : Int) ∣ (10 : Int) ^ decExp q.den

instance (q : ℚ) : Decidable (FinDec q) := by unfold FinDec; infer_instance

/-- Unsigned part of the decimal printing of `q`: with `k = decExp q.den`
and `m = |num| * 10^k / den` (exact when `FinDec q`), print
`m / 10^k` `.` `m % 10^k` zero-padded to `k` digits. -/
def printURat (q : ℚ) : List Char :=
  printNat (q.num.natAbs * 10 ^ decExp q.den / q.den / 10 ^ decExp q.den) ++
    '.' :: padLeft
      (printNat (q.num.natAbs * 10 ^ decExp q.den / q.den % 10 ^ decExp q.den))
      (decExp q.den)

def printRat (q : ℚ) : List Char :=
  if q < 0 then '-' :: printURat q else printURat q

theorem decExp_pos (den : Nat) : 1 ≤ decExp den := by
  rw [decExp]
  split <;> omega

theorem dot_not_mem_printNat (n : Nat) : '.' ∉ printNat n := by
  intro hm
  obtain ⟨d, hd, hc⟩ := printNat_all_digits n '.' hm
  interval_cases d <;> simp_all [digitChar]

theorem dash_not_mem_printNat (n : Nat) : '-' ∉ printNat n := by
  intro hm
  obtain ⟨d, hd, hc⟩ := printNat_all_digits n '-' hm
  interval_cases d <;> simp_all [digitChar]

theorem dot_not_mem_padLeft_printNat (n k : Nat) :
    '.' ∉ padLeft (printNat n) k := by
  intro hm
  rcases mem_padLeft hm with h | h
  · simp at h
  · exact dot_not_mem_printNat n h

theorem head_printNat_not_dash (n : Nat) :
    ∀ c cs, printNat n = c :: cs → c ≠ '-' := by
  intro c cs hc
  have : c ∈ printNat n := by rw [hc]; exact List.mem_cons_self c cs
  intro hd
  exact dash_not_mem_printNat n (hd ▸ this)

theorem parseURat_printURat {q : ℚ} (h : FinDec q) :
    parseURat (printURat q) = some |q| := by
  rw [printURat, parseURat]
  set k := decExp q.den with hk
  set m := q.num.natAbs * 10 ^ k / q.den with hm
  have hsplit : splitSep '.' (printNat (m / 10 ^ k) ++
      '.' :: padLeft (printNat (m % 10 ^ k)) k) =
      [printNat (m / 10 ^ k), padLeft (printNat (m % 10 ^ k)) k] := by
    rw [splitSep_append _ (dot_not_mem_printNat _),
      splitSep_no_sep (dot_not_mem_padLeft_printNat _ _)]
  rw [hsplit]
  simp only [parseNat_printNat, parseNat_padLeft]
  have hlen : (padLeft (printNat (m % 10 ^ k)) k).length = k := by
    apply padLeft_length
    exact printNat_length_le (decExp_pos q.den)
      (Nat.mod_lt _ (pow_pos (by omega) k))
  rw [hlen]
  congr 1
  -- exact division: q.den ∣ 10 ^ k, so m * q.den = |q.num| * 10 ^ k
  have hdvd : q.den ∣ q.num.natAbs * 10 ^ k := by
    have hint : (q.den : Int) ∣ (10 : Int) ^ k := h
    have hnat : q.den ∣ 10 ^ k := by exact_mod_cast hint
    exact hnat.mul_left _
  have hmden : m * q.den = q.num.natAbs * 10 ^ k :=
    Nat.div_mul_cancel hdvd
  have hden : (0 : ℚ) < (q.den : ℚ) := by exact_mod_cast q.den_pos
  have hsum : m / 10 ^ k * 10 ^ k + m % 10 ^ k = m := by
    rw [Nat.mul_comm]
    exact Nat.div_add_mod m (10 ^ k)
  rw [hsum, Rat.mkRat_eq_div]
  -- and m / 10^k equals |q|
  have habs : |q| = ((q.num.natAbs : ℚ)) / ((q.den : ℚ)) := by
    conv_lhs => rw [← Rat.num_div_den q]
    rw [abs_div]
    congr 1
    · rw [Int.cast_natAbs]
      push_cast
      ring
    · rw [abs_of_pos hden]
  rw [habs, div_eq_div_iff (by positivity) (by positivity)]
  push_cast
  exact_mod_cast hmden

theorem parseRat_printRat {q : ℚ} (h : FinDec q) :
    parseRat (printRat q) = some q := by
  rw [printRat]
  by_cases hq : q < 0
  · rw [if_pos hq, parseRat, if_pos rfl, parseURat_printURat h]
    show some (-|q|) = some q
    rw [abs_of_neg hq, neg_neg]
  · rw [if_neg hq]
    have hnn : 0 ≤ q := not_lt.mp hq
    have hinv := parseURat_printURat h
    rw [printURat] at hinv ⊢
    match hpn : printNat (q.num.natAbs * 10 ^ decExp q.den / q.den /
        10 ^ decExp q.den) with
    | [] => exact absurd hpn (printNat_ne_nil _)
    | c :: cs =>
      rw [hpn] at hinv
      rw [List.cons_append] at hinv ⊢
      rw [parseRat, if_neg (head_printNat_not_dash _ c cs hpn), hinv,
        abs_of_nonneg hnn]

theorem parseURat_printNat_natAbs (i : Int) :
    parseURat (printNat i.natAbs) = some ((i.natAbs : ℚ)) := by
  rw [parseURat, splitSep_no_sep (dot_not_mem_printNat _)]
  simp only [parseNat_printNat, Rat.mkRat_one]
  congr 1

theorem parseRat_printInt (i : Int) : parseRat (printInt i) = some (i : ℚ) := by
  rw [printInt]
  by_cases hi : i < 0
  · rw [if_pos hi, parseRat, if_pos rfl, parseURat_printNat_natAbs]
    show some (-(i.natAbs : ℚ)) = some ((i : ℚ))
    congr 1
    rw [Int.cast_natAbs, abs_of_neg hi]
    push_cast
    ring
  · rw [if_neg hi]
    match hpn : printNat i.natAbs with
    | [] => exact absurd hpn (printNat_ne_nil _)
    | c :: cs =>
      have hinv := parseURat_printNat_natAbs i
      rw [hpn] at hinv
      rw [parseRat, if_neg (head_printNat_not_dash _ c cs hpn), hinv]
      congr 1
      rw [Int.cast_natAbs]
      exact_mod_cast abs_of_nonneg (not_lt.mp hi)

theorem parseInt_printInt (i : Int) : parseInt (printInt i) = some i := by
  rw [printInt]
  by_cases hi : i < 0
  · rw [if_pos hi, parseInt, if_pos rfl, parseNat_printNat]
    show some (-(i.natAbs : Int)) = some i
    congr 1
    omega
  · rw [if_neg hi]
    match hpn : printNat i.natAbs with
    | [] => exact absurd hpn (printNat_ne_nil _)
    | c :: cs =>
      have hinv := parseNat_printNat i.natAbs
      rw [hpn] at hinv
      rw [parseInt, if_neg (head_printNat_not_dash _ c cs hpn), hinv]
      show some ((i.natAbs : Int)) = some i
      congr 1
      omega

/-! ### Calendar arithmetic (ported from CPython's `datetime` module)

`ymd2ord` / `ord2ymd` are `date.toordinal` / `date.fromordinal`
(proleptic Gregorian, ordinal 1 = 0001-01-01); `isocalendar` is
`date.isocalendar()` restricted to the (ISO year, ISO week) pair.  These
back `strftime("%V")` (ISO week number, zero-padded to two digits),
`strftime("%Y")` (the plain calendar year), and `date - timedelta(...)`. -/

structure Date where
  year : Nat
  month : Nat
  day : Nat
  deriving DecidableEq, Repr

/-- Python's calendar.isleap / datetime leap-year test. -/
def isLeap (y : Nat) : Bool := (y % 4 == 0 && y % 100 != 0) || y % 400 == 0

/-- `_DAYS_IN_MONTH` of CPython's datetime (index by month 1–12,
non-leap). -/
def daysInMonthTab (m : Nat) : Nat :=
  [0, 31, 28, 31, 30, 31, 30, 31, 31, 30, 31, 30, 31].getD m 0

/-- Days in a month of a given year (`_days_in_month`). -/
def daysInMonth (y m : Nat) : Nat :=
  if m = 2 ∧ isLeap y then 29 else daysInMonthTab m

/-- `_DAYS_BEFORE_MONTH` of CPython's datetime (index by month 1–12,
non-leap). -/
def daysBeforeMonthTab (m : Nat) : Nat :=
  [0, 0, 31, 59, 90, 120, 151, 181, 212, 243, 273, 304, 334].getD m 0

/-- `_days_before_month`: days in the year preceding month `m`. -/
def daysBeforeMonth (y m : Nat) : Nat :=
  daysBeforeMonthTab m + (if m > 2 ∧ isLeap y then 1 else 0)

/-- `_days_before_year`: days before January 1st of year `y`. -/
def daysBeforeYear (y : Nat) : Nat :=
  (y - 1) * 365 + (y - 1) / 4 - (y - 1) / 100 + (y - 1) / 400

/-- `date.toordinal`: proleptic Gregorian ordinal, 0001-01-01 is day 1. -/
def ymd2ord (d : Date) : Nat :=
  daysBeforeYear d.year + daysBeforeMonth d.year d.month + d.day

/-- `date.fromordinal` (`_ord2ymd` in CPython). -/
def ord2ymd (n0 : Nat) : Date :=
  let n := n0 - 1
  let n400 := n / 146097
  let n1r := n % 146097
  let n100 := n1r / 36524
  let n2r := n1r % 36524
  let n4 := n2r / 1461
  let n3r := n2r % 1461
  let n1 := n3r / 365
  let nd := n3r % 365
  let year := n400 * 400 + 1 + n100 * 100 + n4 * 4 + n1
  if n1 = 4 ∨ n100 = 4 then ⟨year - 1, 12, 31⟩
  else
    let leap : Bool := n1 == 3 && (n4 != 24 || n100 == 3)
    let month := (nd + 50) / 32
    let preceding := daysBeforeMonthTab month + (if month > 2 ∧ leap then 1 else 0)
    let (month, preceding) :=
      if preceding > nd then
        (month - 1,
          preceding - (daysInMonthTab (month - 1) +
            (if month - 1 = 2 ∧ leap then 1 else 0)))
      else (month, preceding)
    ⟨year, month, nd - preceding + 1⟩

/-- `_isoweek1monday`: ordinal of the Monday starting ISO week 1 of
year `y`. -/
def isoweek1monday (y : Nat) : Int :=
  let firstday : Int := (ymd2ord ⟨y, 1, 1⟩ : Int)
  let firstweekday : Int := (firstday + 6).emod 7
  let week1monday := firstday - firstweekday
  if firstweekday > 3 then week1monday + 7 else week1monday

/-- `date.isocalendar()`, returning the (ISO year, ISO week) pair. -/
def isocalendar (d : Date) : Nat × Nat :=
  let today : Int := (ymd2ord d : Int)
  let week : Int := (today - isoweek1monday d.year).ediv 7
  if week < 0 then
    ((d.year - 1),
      ((today - isoweek1monday (d.year - 1)).ediv 7).toNat + 1)
  else if week ≥ 52 ∧ today ≥ isoweek1monday (d.year + 1) then
    (d.year + 1, 1)
  else (d.year, week.toNat + 1)

/-- `d.strftime("%Y-W%V")` — the week label `get_weekly_summary` groups
by: the **calendar** year `%Y` of the date joined with its ISO week
number `%V` (zero-padded to two digits). -/
def strftimeYWV (d : Date) : String :=
  String.mk (printNat d.year ++ '-' :: 'W' ::
    padLeft (printNat (isocalendar d).2) 2)

/-- `today - timedelta(days=k)`.  CPython implements date-minus-timedelta
via `fromordinal(toordinal() - k)`; subtracting a zero delta returns the
date unchanged. -/
def dateSubDays (d : Date) (k : Nat) : Date :=
  if k = 0 then d else ord2ymd (ymd2ord d - k)

/-- `date.isoformat()` / `str(date)`: `YYYY-MM-DD`, zero padded. -/
def dateStr (d : Date) : List Char :=
  padLeft (printNat d.year) 4 ++ '-' ::
    (padLeft (printNat d.month) 2 ++ '-' :: padLeft (printNat d.day) 2)

/-- A date the program can store: within Python's `date` range and with a
valid month/day combination. -/
def ValidDate (d : Date) : Prop :=
  1 ≤ d.year ∧ d.year ≤ 9999 ∧ 1 ≤ d.month ∧ d.month ≤ 12 ∧
    1 ≤ d.day ∧ d.day ≤ daysInMonth d.year d.month

instance (d : Date) : Decidable (ValidDate d) := by
  unfold ValidDate; infer_instance

/-- The date parser behind `pd.to_datetime` on the canonical
`YYYY-MM-DD` serialization the program writes; a non-empty cell this
rejects makes `pd.to_datetime` raise. -/
def parseDate (l : List Char) : Option Date :=
  match splitSep '-' l with
  | [ys, ms, ds] =>
    match parseNat ys, parseNat ms, parseNat ds with
    | some y, some m, some dd =>
      if ValidDate ⟨y, m, dd⟩ then some ⟨y, m, dd⟩ else none
    | _, _, _ => none
  | _ => none

theorem dash_not_mem_padLeft_printNat (n k : Nat) :
    '-' ∉ padLeft (printNat n) k := by
  intro hm
  rcases mem_padLeft hm with h | h
  · simp at h
  · exact dash_not_mem_printNat n h

theorem parseDate_dateStr {d : Date} (h : ValidDate d) :
    parseDate (dateStr d) = some d := by
  rw [dateStr, parseDate]
  rw [splitSep_append _ (dash_not_mem_padLeft_printNat _ _),
    splitSep_append _ (dash_not_mem_padLeft_printNat _ _),
    splitSep_no_sep (dash_not_mem_padLeft_printNat _ _)]
  simp only [parseNat_padLeft]
  rw [if_pos h]

/-! ### The data model: rows, the backing file, serialization -/

/-- The fixed 10-column schema written by `ensure_data_file`
(lines 20–23). -/
def COLUMNS : List String :=
  ["id", "timestamp", "date", "exercise", "set_num",
   "reps", "weight", "unit", "notes", "volume"]

/-- One Set-Entry as it sits in a loaded dataframe.  String-typed columns
hold `none` where pandas holds NaN (an empty CSV cell); `date` holds
`none` for NaT; `reps` is the `astype(int)` column; `weight`/`volume`
are the float columns (exact rationals here).  `set_num` is not coerced
by `load_data`; a non-numeric cell would stay a plain object, modelled
as `none`. -/
structure Row where
  id : Option String
  timestamp : Option String
  date : Option Date
  exercise : Option String
  set_num : Option Int
  reps : Int
  weight : ℚ
  unit : Option String
  notes : Option String
  volume : ℚ
  deriving DecidableEq, Repr

abbrev Table := List Row

/-- The backing CSV file: the header line and one line of cells per row.
Quoting in `to_csv`/`read_csv` round-trips any cell content through one
line of text, so the file is modelled at cell granularity. -/
structure File where
  header : List String
  rows : List (List String)
  deriving DecidableEq, Repr

/-- How `to_csv` prints a string column cell: NaN becomes an empty
cell. -/
def serStr : Option String → String
  | some s => s
  | none => ""

/-- How `to_csv` prints the (uncoerced) `set_num` cell. -/
def serInt : Option Int → String
  | some i => String.mk (printInt i)
  | none => ""

/-- How `to_csv` prints the `date` cell: `str(date)` = ISO format, NaT
becomes an empty cell.  Rows freshly appended by `add_workout_entry`
store `entry_date.isoformat()`, the identical text. -/
def serDate : Option Date → String
  | some d => String.mk (dateStr d)
  | none => ""

/-- One data line of `df.to_csv(index=False)`, in the fixed column
order. -/
def serializeRow (r : Row) : List String :=
  [serStr r.id, serStr r.timestamp, serDate r.date, serStr r.exercise,
   serInt r.set_num, String.mk (printInt r.reps),
   String.mk (printRat r.weight), serStr r.unit, serStr r.notes,
   String.mk (printRat r.volume)]

/-- `df.to_csv(index=False)`: header then data lines.  The dataframe's
columns are always the canonical ten (created so by `ensure_data_file`
and preserved by `pd.concat` and filtering), so every written file
carries the fixed header. -/
def serializeFile (t : Table) : File := ⟨COLUMNS, t.map serializeRow⟩

/-- `csv_bytes = df.to_csv(index=False).encode("utf-8")` (line 180), the
export payload: the same serialization `save_data` writes. -/
def csv_bytes (t : Table) : File := serializeFile t

/-- `read_csv` on a string column cell: an empty cell is NaN. -/
def readStrCell (s : String) : Option String :=
  if s = "" then none else some s

/-- `read_csv` type inference on the `set_num` cell (not coerced by
`load_data`): numeric text becomes an integer, an empty cell NaN, other
text stays a non-numeric object (`none` here). -/
def readIntCell (s : String) : Option Int :=
  if s = "" then none else parseInt s.data

/-- `pd.to_numeric(col, errors="coerce").fillna(0).astype(int)` on one
`reps` cell (line 32): unparseable or empty text coerces to 0, a decimal
truncates toward zero. -/
def coerceReps (s : String) : Int :=
  match parseRat s.data with
  | some q => q.num.tdiv (q.den : Int)
  | none => 0

/-- `pd.to_numeric(col, errors="coerce").fillna(0.0)` on one `weight` or
`volume` cell (lines 33–34). -/
def coerceFloat (s : String) : ℚ :=
  match parseRat s.data with
  | some q => q
  | none => 0

/-- `pd.to_datetime(col).dt.date` on one cell (line 31): an empty cell
becomes NaT, and a non-empty cell that does not parse as a date makes
`pd.to_datetime` raise — the outer `none` aborts the load. -/
def readDateCell (s : String) : Option (Option Date) :=
  if s = "" then some none
  else
    match parseDate s.data with
    | some d => some (some d)
    | none => none

/-- The per-row effect of `load_data`s coercions (lines 30–34). -/
def parseRow (cells : List String) : Option Row :=
  match cells with
  | [a, b, c, d, e, f, g, h, i, j] =>
    match readDateCell c with
    | some dd =>
      some { id := readStrCell a, timestamp := readStrCell b, date := dd,
             exercise := readStrCell d, set_num := readIntCell e,
             reps := coerceReps f, weight := coerceFloat g,
             unit := readStrCell h, notes := readStrCell i,
             volume := coerceFloat j }
    | none => none
  | _ => none

/-- `load_data`s parse of the file body: an empty table is returned as
is (`if not df.empty` skips all coercions), otherwise every row is
coerced and a malformed date cell raises (`none`). -/
def parseFile (f : File) : Option Table :=
  if f.rows = [] then some [] else f.rows.mapM parseRow

/-! ### The Store: `ensure_data_file`, `load_data`, `save_data` -/

/-- The process state the Store sees: the backing file on disk (if it
exists yet) and the `st.cache_data` memo of `load_data`. -/
structure Store where
  file : Option File
  cache : Option Table
  deriving DecidableEq, Repr

/-- `ensure_data_file` (lines 17–24): if the file is absent, create it
with the ten columns and zero rows. -/
def ensure_data_file (s : Store) : Store :=
  match s.file with
  | none => { s with file := some ⟨COLUMNS, []⟩ }
  | some _ => s

/-- `load_data` (lines 26–35) under its `@st.cache_data` memo: a cached
result is returned unchanged without touching the disk; otherwise the
file is ensured, read and coerced, and a successful result is cached
(`st.cache_data` does not cache exceptions).  `none` is the pandas
exception escaping on a malformed date cell. -/
def load_data (s : Store) : Option (Table × Store) :=
  match s.cache with
  | some t => some (t, s)
  | none =>
    let f := s.file.getD ⟨COLUMNS, []⟩
    match parseFile f with
    | some t => some (t, { file := some f, cache := some t })
    | none => none

/-- `save_data` (lines 37–39): write the full table back, then
`load_data.clear()` empties the memo. -/
def save_data (t : Table) (_s : Store) : Store :=
  { file := some (serializeFile t), cache := none }

/-! ### Entry Log: `add_workout_entry`, `delete_rows_by_ids` -/

/-- One `{"set_num": ..., "reps": ..., "weight": ...}` dict from the
submission form. -/
structure SetInput where
  set_num : Int
  reps : Int
  weight : ℚ
  deriving DecidableEq, Repr

/-- One row synthesized by the loop body of `add_workout_entry`
(lines 45–58): the i-th `uuid.uuid4()` draw, the shared timestamp taken
once before the loop, and `volume = s["reps"] * float(s["weight"])`. -/
def mkRow (uuid : Nat → String) (ts : String) (entry_date : Date)
    (exercise : String) (unitName notes : String) (i : Nat)
    (s : SetInput) : Row :=
  { id := some (uuid i), timestamp := some ts, date := some entry_date,
    exercise := some exercise.trim, set_num := some s.set_num,
    reps := s.reps, weight := s.weight, unit := some unitName,
    notes := some notes.trim, volume := (s.reps : ℚ) * s.weight }

/-- The `rows` list built by `add_workout_entry`s loop, drawing uuids in
sequence. -/
def mkRows (uuid : Nat → String) (ts : String) (entry_date : Date)
    (exercise : String) (unitName notes : String) :
    Nat → List SetInput → List Row
  | _, [] => []
  | i, s :: rest =>
    mkRow uuid ts entry_date exercise unitName notes i s ::
      mkRows uuid ts entry_date exercise unitName notes (i + 1) rest

/-- `add_workout_entry` (lines 41–61): load the table, synthesize one
row per submitted set, and—only if there are rows—save the
concatenation.  With no rows nothing is written: the post-load state is
returned as is. -/
def add_workout_entry (s : Store) (entry_date : Date) (exercise : String)
    (sets : List SetInput) (unitName notes : String) (ts : String)
    (uuid : Nat → String) : Option Store :=
  match load_data s with
  | some (df, s₁) =>
    let rows := mkRows uuid ts entry_date exercise unitName notes 0 sets
    if rows = [] then some s₁ else some (save_data (df ++ rows) s₁)
  | none => none

/-- `df["id"].isin(ids)` on one row; a NaN id matches nothing. -/
def idMatches (r : Row) (ids : List String) : Bool :=
  match r.id with
  | some s => ids.contains s
  | none => false

/-- `delete_rows_by_ids` (lines 63–68) as the table transformation it
saves: an empty table returns early without saving, otherwise exactly
the non-matching rows are kept (`df[~df["id"].isin(ids)]`) and saved.
The boolean records whether a save happened. -/
def delete_rows_by_ids (t : Table) (ids : List String) : Table × Bool :=
  if t = [] then (t, false)
  else (t.filter (fun r => ! idMatches r ids), true)

/-! ### Aggregator: `get_weekly_summary` and the sorted history -/

/-- The grouping key `df2["date"].dt.strftime("%Y-W%V")` (line 75); a
missing date (NaT) yields a missing key that matches no week label and
is dropped by `groupby`. -/
def rowWeekKey (r : Row) : Option String := r.date.map strftimeYWV

/-- Sum of the `volume` column. -/
def sumVolume (t : Table) : ℚ := (t.map Row.volume).sum

/-- Lines 76–77: restrict to the selected exercise when the filter is
truthy (non-`None`, non-empty) and not the "All" sentinel. -/
def filterByExercise (t : Table) (exercise_filter : Option String) :
    Table :=
  match exercise_filter with
  | some s =>
    if s ≠ "" ∧ s ≠ "All" then t.filter (fun r => r.exercise == some s)
    else t
  | none => t

/-- Line 80: `wk_list`, the labels of `today - timedelta(weeks=i)` for
`i = weeks-1 .. 0` — oldest first, today's week last. -/
def weekLabels (weeks : Nat) (today : Date) : List String :=
  (List.range weeks).reverse.map
    (fun i => strftimeYWV (dateSubDays today (7 * i)))

/-- `get_weekly_summary` (lines 70–84): empty frame for an empty table;
else filter by exercise, group summed volume by the `%Y-W%V` key, and
left-join the sums onto the fixed week list with missing weeks filled
to 0.  A label's joined volume is exactly the sum of the volumes of the
rows keyed to it (0 when there are none, which is what `fillna(0)`
produces — the grouped frame has one row per key, so the left join keeps
one output row per week label). -/
def get_weekly_summary (t : Table) (weeks : Nat)
    (exercise_filter : Option String) (today : Date) :
    List (String × ℚ) :=
  if t = [] then []
  else
    (weekLabels weeks today).map (fun l =>
      (l, sumVolume ((filterByExercise t exercise_filter).filter
        (fun r => rowWeekKey r == some l))))

/-- Date sort key of a row (the calendar order of valid dates is the
order of their ordinals); the history claims are stated for tables whose
rows all carry a date. -/
def dateKey (r : Row) : Nat :=
  match r.date with
  | some d => ymd2ord d
  | none => 0

/-- Exercise sort key of a row. -/
def exKey (r : Row) : String := r.exercise.getD ""

/-- Set-number sort key of a row. -/
def snKey (r : Row) : Int := r.set_num.getD 0

/-- The display order of `show_df` (line 164): date descending, then
exercise ascending, then set number ascending. -/
def histLE (r₁ r₂ : Row) : Prop :=
  dateKey r₂ < dateKey r₁ ∨
    (dateKey r₁ = dateKey r₂ ∧
      (exKey r₁ < exKey r₂ ∨
        (exKey r₁ = exKey r₂ ∧ snKey r₁ ≤ snKey r₂)))

instance : DecidableRel histLE := fun _ _ => by
  unfold histLE
  infer_instance

/-- `df.sort_values(by=["date","exercise","set_num"],
ascending=[False,True,True])` (line 164).  pandas sorts several keys
with `np.lexsort`, a stable sort; the unique stable sort by a total
preorder is insertion sort keeping ties in input order. -/
def full_history (t : Table) : Table := List.insertionSort histLE t

theorem histLE_total (a b : Row) : histLE a b ∨ histLE b a := by
  unfold histLE
  rcases lt_trichotomy (dateKey a) (dateKey b) with h | h | h
  · exact Or.inr (Or.inl h)
  · rcases lt_trichotomy (exKey a) (exKey b) with h2 | h2 | h2
    · exact Or.inl (Or.inr ⟨h, Or.inl h2⟩)
    · rcases le_total (snKey a) (snKey b) with h3 | h3
      · exact Or.inl (Or.inr ⟨h, Or.inr ⟨h2, h3⟩⟩)
      · exact Or.inr (Or.inr ⟨h.symm, Or.inr ⟨h2.symm, h3⟩⟩)
    · exact Or.inr (Or.inr ⟨h.symm, Or.inl h2⟩)
  · exact Or.inl (Or.inl h)

theorem histLE_trans {a b c : Row} (h₁ : histLE a b) (h₂ : histLE b c) :
    histLE a c := by
  unfold histLE at h₁ h₂ ⊢
  rcases h₁ with h₁ | ⟨e₁, h₁⟩
  · rcases h₂ with h₂ | ⟨e₂, _⟩
    · exact Or.inl (by omega)
    · exact Or.inl (by omega)
  · rcases h₂ with h₂ | ⟨e₂, h₂⟩
    · exact Or.inl (by omega)
    · refine Or.inr ⟨e₁.trans e₂, ?_⟩
      rcases h₁ with h₁ | ⟨f₁, h₁⟩
      · rcases h₂ with h₂ | ⟨f₂, _⟩
        · exact Or.inl (lt_trans h₁ h₂)
        · exact Or.inl (f₂ ▸ h₁)
      · rcases h₂ with h₂ | ⟨f₂, h₂⟩
        · exact Or.inl (lt_of_le_of_lt (le_of_eq f₁) h₂)
        · exact Or.inr ⟨f₁.trans f₂, le_trans h₁ h₂⟩

instance : IsTotal Row histLE := ⟨histLE_total⟩

instance : IsTrans Row histLE := ⟨fun _ _ _ => histLE_trans⟩

/-! ### Cells that survive the CSV round trip -/

theorem data_mk (l : List Char) : (String.mk l).data = l := rfl

theorem mk_ne_empty {l : List Char} (h : l ≠ []) : String.mk l ≠ "" := by
  intro hmk
  exact h (by simpa using congrArg String.data hmk)

/-- A string cell that reloads from CSV text as itself: non-empty (an
empty cell reloads as NaN) and not numeric text (an all-numeric column
would be inferred as numbers by `read_csv`). -/
def GoodStr (s : String) : Prop := s ≠ "" ∧ parseRat s.data = none

instance (s : String) : Decidable (GoodStr s) := by
  unfold GoodStr
  infer_instance

/-- A present string field with a round-trip-safe value. -/
def GoodOptStr : Option String → Prop
  | some s => GoodStr s
  | none => False

instance (o : Option String) : Decidable (GoodOptStr o) := by
  cases o <;> (unfold GoodOptStr; infer_instance)

/-- A present, in-range date field. -/
def GoodOptDate : Option Date → Prop
  | some d => ValidDate d
  | none => False

instance (o : Option Date) : Decidable (GoodOptDate o) := by
  cases o <;> (unfold GoodOptDate; infer_instance)

/-- A row every field of which reloads from its CSV text unchanged: all
string fields present, non-empty and non-numeric, the date present and
valid, `set_num` present, and the float fields finite decimals (every
Python float is one). -/
def WellFormedRow (r : Row) : Prop :=
  GoodOptStr r.id ∧ GoodOptStr r.timestamp ∧ GoodOptDate r.date ∧
    GoodOptStr r.exercise ∧ r.set_num.isSome = true ∧
    FinDec r.weight ∧ FinDec r.volume ∧ GoodOptStr r.unit ∧
    GoodOptStr r.notes

instance (r : Row) : Decidable (WellFormedRow r) := by
  unfold WellFormedRow
  infer_instance

def WellFormedTable (t : Table) : Prop := ∀ r ∈ t, WellFormedRow r

instance (t : Table) : Decidable (WellFormedTable t) := by
  unfold WellFormedTable
  infer_instance

theorem readStrCell_of_ne {s : String} (h : s ≠ "") :
    readStrCell s = some s := by
  rw [readStrCell, if_neg h]

theorem readDateCell_mk_dateStr {d : Date} (h : ValidDate d) :
    readDateCell (String.mk (dateStr d)) = some (some d) := by
  have hne : dateStr d ≠ [] := by
    rw [dateStr]
    simp
  rw [readDateCell, if_neg (mk_ne_empty hne), data_mk,
    parseDate_dateStr h]

theorem printInt_ne_nil (i : Int) : printInt i ≠ [] := by
  rw [printInt]
  split
  · simp
  · exact printNat_ne_nil _

theorem readIntCell_mk_printInt (n : Int) :
    readIntCell (String.mk (printInt n)) = some n := by
  rw [readIntCell, if_neg (mk_ne_empty (printInt_ne_nil n)),
    data_mk, parseInt_printInt]

theorem coerceReps_printInt (i : Int) :
    coerceReps (String.mk (printInt i)) = i := by
  rw [coerceReps, data_mk, parseRat_printInt]
  simp [Rat.num_intCast, Rat.den_intCast]

theorem coerceFloat_printRat {q : ℚ} (h : FinDec q) :
    coerceFloat (String.mk (printRat q)) = q := by
  rw [coerceFloat, data_mk, parseRat_printRat h]

theorem parseRow_serializeRow {r : Row} (h : WellFormedRow r) :
    parseRow (serializeRow r) = some r := by
  obtain ⟨hid, hts, hdate, hex, hsn, hw, hv, hu, hn⟩ := h
  obtain ⟨rid, rts, rdate, rex, rsn, rreps, rw, ru, rnotes, rvol⟩ := r
  match rid, hid with
  | some sid, hid =>
  match rts, hts with
  | some sts, hts =>
  match rdate, hdate with
  | some d, hdate =>
  match rex, hex with
  | some sex, hex =>
  match rsn, hsn with
  | some nsn, _ =>
  match ru, hu with
  | some su, hu =>
  match rnotes, hn with
  | some snotes, hn =>
  simp only [GoodOptStr, GoodOptDate, GoodStr] at hid hts hdate hex hu hn
  simp only [serializeRow, serStr, serInt, serDate, parseRow,
    readDateCell_mk_dateStr hdate,
    readStrCell_of_ne hid.1, readStrCell_of_ne hts.1,
    readStrCell_of_ne hex.1, readStrCell_of_ne hu.1,
    readStrCell_of_ne hn.1, readIntCell_mk_printInt,
    coerceReps_printInt, coerceFloat_printRat hw,
    coerceFloat_printRat hv]

theorem mapM_parseRow_serializeRow {t : Table} (h : WellFormedTable t) :
    (t.map serializeRow).mapM parseRow = some t := by
  induction t with
  | nil => rfl
  | cons r rs ih =>
    rw [List.map_cons, List.mapM_cons,
      parseRow_serializeRow (h r (List.mem_cons_self r rs)),
      ih (fun x hx => h x (List.mem_cons_of_mem r hx))]
    rfl

/-- CSV round trip for well-formed tables: writing with `to_csv` and
loading with `load_data`s coercions restores every row exactly. -/
theorem parseFile_serializeFile {t : Table} (h : WellFormedTable t) :
    parseFile (serializeFile t) = some t := by
  cases t with
  | nil => rfl
  | cons r rs =>
    rw [serializeFile, parseFile]
    rw [if_neg (by simp)]
    exact mapM_parseRow_serializeRow h

/-! ### Stability of the three-key sort -/

theorem filter_orderedInsert_pos {p : Row → Bool} {a : Row}
    (hp : p a = true) (l : List Row)
    (hle : ∀ b ∈ l, p b = true → histLE a b) :
    (List.orderedInsert histLE a l).filter p = a :: l.filter p := by
  induction l with
  | nil => simp [List.orderedInsert, hp]
  | cons x xs ih =>
    rw [List.orderedInsert]
    by_cases hax : histLE a x
    · rw [if_pos hax]
      simp [List.filter_cons, hp]
    · rw [if_neg hax]
      have hpx : p x = false := by
        by_contra hc
        exact hax (hle x (List.mem_cons_self x xs) (by simpa using hc))
      rw [List.filter_cons, List.filter_cons]
      simp only [hpx, Bool.false_eq_true, if_false]
      exact ih (fun b hb => hle b (List.mem_cons_of_mem x hb))

theorem filter_orderedInsert_neg {p : Row → Bool} {a : Row}
    (hp : p a = false) (l : List Row) :
    (List.orderedInsert histLE a l).filter p = l.filter p := by
  induction l with
  | nil => simp [List.orderedInsert, hp]
  | cons x xs ih =>
    rw [List.orderedInsert]
    by_cases hax : histLE a x
    · rw [if_pos hax]
      simp [List.filter_cons, hp]
    · rw [if_neg hax]
      rw [List.filter_cons, List.filter_cons]
      cases hpx : p x <;> simp [hpx, ih]

/-- Insertion sort is stable: the subsequence satisfying any predicate
whose rows are mutually tied under `histLE` is untouched. -/
theorem filter_insertionSort (p : Row → Bool)
    (hkey : ∀ a b : Row, p a = true → p b = true → histLE a b)
    (t : Table) :
    (List.insertionSort histLE t).filter p = t.filter p := by
  induction t with
  | nil => rfl
  | cons x xs ih =>
    rw [List.insertionSort]
    cases hpx : p x with
    | true =>
      rw [filter_orderedInsert_pos hpx _ (fun b _ hb => hkey x b hpx hb),
        ih]
      simp [List.filter_cons, hpx]
    | false =>
      rw [filter_orderedInsert_neg hpx _, ih]
      simp [List.filter_cons, hpx]

/-! ### The rows built by one `add_workout_entry` call -/

theorem length_mkRows (uuid : Nat → String) (ts : String) (ed : Date)
    (ex un nt : String) (i : Nat) (sets : List SetInput) :
    (mkRows uuid ts ed ex un nt i sets).length = sets.length := by
  induction sets generalizing i with
  | nil => rfl
  | cons s rest ih =>
    rw [mkRows, List.length_cons, ih, List.length_cons]

theorem get_mkRows (uuid : Nat → String) (ts : String) (ed : Date)
    (ex un nt : String) (i : Nat) (sets : List SetInput) (j : Nat)
    (h : j < sets.length)
    (h2 : j < (mkRows uuid ts ed ex un nt i sets).length) :
    (mkRows uuid ts ed ex un nt i sets).get ⟨j, h2⟩ =
      mkRow uuid ts ed ex un nt (i + j) (sets.get ⟨j, h⟩) := by
  induction sets generalizing i j with
  | nil => exact absurd h (by simp)
  | cons s rest ih =>
    cases j with
    | zero => rfl
    | succ j =>
      have h3 : j < rest.length := Nat.lt_of_succ_lt_succ h
      have h4 : j < (mkRows uuid ts ed ex un nt (i + 1) rest).length := by
        rw [length_mkRows]
        exact h3
      show (mkRows uuid ts ed ex un nt (i + 1) rest).get ⟨j, h4⟩ =
        mkRow uuid ts ed ex un nt (i + (j + 1)) (rest.get ⟨j, h3⟩)
      rw [show i + (j + 1) = i + 1 + j by omega]
      exact ih (i + 1) j h3 h4

theorem map_id_mkRows (uuid : Nat → String) (ts : String) (ed : Date)
    (ex un nt : String) (i : Nat) (sets : List SetInput) :
    (mkRows uuid ts ed ex un nt i sets).map Row.id =
      (List.range' i sets.length).map (fun j => some (uuid j)) := by
  induction sets generalizing i with
  | nil => rfl
  | cons s rest ih =>
    rw [mkRows, List.length_cons, List.range', List.map_cons,
      List.map_cons, ih]
    rfl

theorem timestamp_mkRows (uuid : Nat → String) (ts : String) (ed : Date)
    (ex un nt : String) (i : Nat) (sets : List SetInput) :
    ∀ r ∈ mkRows uuid ts ed ex un nt i sets, r.timestamp = some ts := by
  induction sets generalizing i with
  | nil => intro r hr; simp [mkRows] at hr
  | cons s rest ih =>
    intro r hr
    rw [mkRows, List.mem_cons] at hr
    rcases hr with rfl | hr
    · rfl
    · exact ih (i + 1) r hr

/-! ### Sample data for concrete witnesses -/

/-- A well-formed sample row (as `add_workout_entry` would create after a
reload). -/
def sampleRow : Row :=
  { id := some "aaa", timestamp := some "2024-01-15T10:30:00",
    date := some ⟨2024, 1, 15⟩, exercise := some "Bench Press",
    set_num := some 1, reps := 8, weight := 50, unit := some "kg",
    notes := some "felt strong", volume := 400 }

/-- `sampleRow` with empty notes — exactly what a submission with no
notes stores. -/
def rowEmptyNotes : Row := { sampleRow with notes := some "" }

/-- A deterministic stand-in for the `uuid.uuid4()` draw stream used in
witnesses. -/
def demoUuid (i : Nat) : String := String.mk ('u' :: printNat i)

theorem demoUuid_injective : ∀ i j : Nat, i ≠ j → demoUuid i ≠ demoUuid j := by
  intro i j hne heq
  apply hne
  have hdata := congrArg String.data heq
  simp only [demoUuid, data_mk, List.cons.injEq] at hdata
  exact printNat_injective hdata.2

/-! ### Claim theorems -/

/-- C4: for every valid submission with `N` sets, `add_workout_entry`
appends exactly `N` rows (total row count grows by `N`), leaves every
pre-existing row unchanged in place, stores `volume = reps * weight` in
each new row, and saves the concatenation in one `save_data` call; with
zero sets it is a no-op that performs no save (the post-load state is
returned untouched). -/
theorem add_batch_row_count (s : Store) (df : Table) (s₁ : Store)
    (entry_date : Date) (exercise : String) (sets : List SetInput)
    (unitName notes ts : String) (uuid : Nat → String)
    (hload : load_data s = some (df, s₁)) :
    (df ++ mkRows uuid ts entry_date exercise unitName notes 0 sets).length
        = df.length + sets.length ∧
    (df ++ mkRows uuid ts entry_date exercise unitName notes 0 sets).take
        df.length = df ∧
    (∀ j (hj : j < sets.length)
        (hj2 : j < (mkRows uuid ts entry_date exercise unitName notes 0
          sets).length),
      ((mkRows uuid ts entry_date exercise unitName notes 0 sets).get
          ⟨j, hj2⟩).volume =
        ((sets.get ⟨j, hj⟩).reps : ℚ) * (sets.get ⟨j, hj⟩).weight) ∧
    (sets ≠ [] →
      add_workout_entry s entry_date exercise sets unitName notes ts uuid =
        some (save_data
          (df ++ mkRows uuid ts entry_date exercise unitName notes 0 sets)
          s₁)) ∧
    (sets = [] →
      add_workout_entry s entry_date exercise sets unitName notes ts uuid =
        some s₁) := by
  have hnil : mkRows uuid ts entry_date exercise unitName notes 0 sets = []
      ↔ sets = [] := by
    constructor
    · intro h
      have := length_mkRows uuid ts entry_date exercise unitName notes 0 sets
      rw [h] at this
      exact List.eq_nil_of_length_eq_zero this.symm
    · intro h
      rw [h]
      rfl
  refine ⟨?_, List.take_left df _, ?_, ?_, ?_⟩
  · rw [List.length_append, length_mkRows]
  · intro j hj hj2
    rw [get_mkRows uuid ts entry_date exercise unitName notes 0 sets j hj hj2]
    rfl
  · intro hne
    rw [add_workout_entry, hload]
    simp only [if_neg (fun hc => hne (hnil.mp hc))]
  · intro hne
    rw [add_workout_entry, hload]
    simp only [if_pos (hnil.mpr hne)]

/-- Witness for C4 at a concrete input: the spec's own scenario — two
sets of 8 reps at weight 50 on an empty store. -/
theorem add_batch_row_count_witness :
    (([] : Table) ++ mkRows demoUuid "2024-01-15T10:30:00" ⟨2024, 1, 15⟩
        "Bench Press" "kg" "" 0 [⟨1, 8, 50⟩, ⟨2, 8, 50⟩]).length
      = ([] : Table).length + 2 :=
  (add_batch_row_count ⟨none, none⟩ [] ⟨some ⟨COLUMNS, []⟩, some []⟩
    ⟨2024, 1, 15⟩ "Bench Press" [⟨1, 8, 50⟩, ⟨2, 8, 50⟩] "kg" ""
    "2024-01-15T10:30:00" demoUuid (by decide)).1

/-- C5: every row created by one `add_workout_entry` call carries the one
timestamp taken before the loop, and — given that the uuid draws are
distinct and avoid the ids already in the table (the `uuid4` contract) —
the resulting table's ids are pairwise distinct, across the batch and
against every pre-existing row. -/
theorem add_batch_fresh_ids (df : Table) (entry_date : Date)
    (exercise : String) (sets : List SetInput) (unitName notes ts : String)
    (uuid : Nat → String)
    (hinj : ∀ i j : Nat, i ≠ j → uuid i ≠ uuid j)
    (hfresh : ∀ i : Nat, some (uuid i) ∉ df.map Row.id)
    (hdistinct : (df.map Row.id).Pairwise (· ≠ ·)) :
    (∀ r ∈ mkRows uuid ts entry_date exercise unitName notes 0 sets,
      r.timestamp = some ts) ∧
    ((df ++ mkRows uuid ts entry_date exercise unitName notes 0 sets).map
      Row.id).Pairwise (· ≠ ·) := by
  refine ⟨timestamp_mkRows uuid ts entry_date exercise unitName notes 0 sets,
    ?_⟩
  rw [List.map_append, List.pairwise_append]
  refine ⟨hdistinct, ?_, ?_⟩
  · rw [map_id_mkRows]
    have hnodup : (List.range' 0 sets.length).Nodup := List.nodup_range' 0 _
    refine hnodup.map ?_
    intro a b hab
    by_contra hne
    exact hinj a b hne (Option.some_injective _ hab)
  · intro a ha b hb
    rw [map_id_mkRows] at hb
    obtain ⟨j, _, rfl⟩ := List.mem_map.mp hb
    intro hc
    exact hfresh j (hc ▸ ha)

/-- Witness for C5 at a concrete input: a two-set batch on the empty
table with the deterministic uuid stream. -/
theorem add_batch_fresh_ids_witness :
    ((([] : Table) ++ mkRows demoUuid "2024-01-15T10:30:00" ⟨2024, 1, 15⟩
        "Bench Press" "kg" "" 0 [⟨1, 8, 50⟩, ⟨2, 8, 50⟩]).map
      Row.id).Pairwise (· ≠ ·) :=
  (add_batch_fresh_ids [] ⟨2024, 1, 15⟩ "Bench Press"
    [⟨1, 8, 50⟩, ⟨2, 8, 50⟩] "kg" "" "2024-01-15T10:30:00" demoUuid
    demoUuid_injective (by simp) (by simp)).2

/-- C6: `delete_rows_by_ids` keeps exactly the rows whose id is not in
the given list — every kept row is an unchanged original (the result is
a sublist, so order and all field values survive), every non-matching
row is kept, ids without a matching row are silently ignored (if nothing
matches the table is returned whole), and the empty table is a no-op
without a save. -/
theorem delete_by_ids_exact (t : Table) (ids : List String) :
    (∀ r ∈ (delete_rows_by_ids t ids).1, r ∈ t ∧ idMatches r ids = false) ∧
    (∀ r ∈ t, idMatches r ids = false → r ∈ (delete_rows_by_ids t ids).1) ∧
    (delete_rows_by_ids t ids).1.Sublist t ∧
    (t = [] → delete_rows_by_ids t ids = (t, false)) ∧
    ((∀ r ∈ t, idMatches r ids = false) →
      (delete_rows_by_ids t ids).1 = t) := by
  by_cases ht : t = []
  · subst ht
    refine ⟨?_, ?_, ?_, ?_, ?_⟩ <;> simp [delete_rows_by_ids]
  · rw [delete_rows_by_ids, if_neg ht]
    refine ⟨?_, ?_, List.filter_sublist t, fun hc => absurd hc ht, ?_⟩
    · intro r hr
      have := List.mem_filter.mp hr
      simpa using this
    · intro r hr hm
      exact List.mem_filter.mpr ⟨hr, by simp [hm]⟩
    · intro hall
      rw [List.filter_eq_self]
      intro r hr
      simp [hall r hr]

/-- Witness for C6 at a concrete input: deleting id "aaa" from the
two-row table removes exactly the matching row. -/
theorem delete_by_ids_exact_witness :
    (delete_rows_by_ids [sampleRow, rowEmptyNotes] ["aaa"]).1.Sublist
      [sampleRow, rowEmptyNotes] :=
  (delete_by_ids_exact [sampleRow, rowEmptyNotes] ["aaa"]).2.2.1

theorem load_data_cache {s : Store} {t₀ : Table} {s₁ : Store}
    (h : load_data s = some (t₀, s₁)) : s₁.cache = some t₀ := by
  cases hc : s.cache with
  | some t =>
    simp only [load_data, hc] at h
    obtain ⟨h1, h2⟩ := Prod.mk.injEq .. ▸ Option.some_injective _ h
    rw [← h2, hc, h1]
  | none =>
    simp only [load_data, hc] at h
    cases hp : parseFile (s.file.getD ⟨COLUMNS, []⟩) with
    | some t =>
      rw [hp] at h
      obtain ⟨h1, h2⟩ := Prod.mk.injEq .. ▸ Option.some_injective _ h
      rw [← h2, h1]
    | none =>
      rw [hp] at h
      exact absurd h (by simp)

theorem load_data_of_cache {s : Store} {t : Table} (h : s.cache = some t) :
    load_data s = some (t, s) := by
  simp only [load_data, h]

/-- C7 (amended): `load_data` is memoized — a second call returns the
same table and state, and does so independently of the on-disk file (no
re-read); `save_data` clears the memo and the next `load_data` re-reads
exactly the file the save wrote, which for a well-formed table restores
that table itself.  (The unamended "exactly" fails for tables with empty
string cells; see the counterexample.) -/
theorem load_memo_and_save_reload (s : Store) (t₀ : Table) (s₁ : Store)
    (hload : load_data s = some (t₀, s₁)) :
    load_data s₁ = some (t₀, s₁) ∧
    (∀ f : Option File,
      load_data { s₁ with file := f } = some (t₀, { s₁ with file := f })) ∧
    (∀ t : Table, (save_data t s).cache = none ∧
      load_data (save_data t s) =
        (parseFile (serializeFile t)).map
          (fun t₂ => (t₂, ⟨some (serializeFile t), some t₂⟩))) ∧
    (∀ t : Table, WellFormedTable t →
      load_data (save_data t s) =
        some (t, ⟨some (serializeFile t), some t⟩)) := by
  have hcache := load_data_cache hload
  refine ⟨load_data_of_cache hcache, ?_, ?_, ?_⟩
  · intro f
    exact @load_data_of_cache { s₁ with file := f } t₀ hcache
  · intro t
    refine ⟨rfl, ?_⟩
    simp only [load_data, save_data, Option.getD_some]
    cases parseFile (serializeFile t) <;> rfl
  · intro t hwf
    simp only [load_data, save_data, Option.getD_some,
      parseFile_serializeFile hwf]

/-- Witness for C7 at a concrete input: load twice from a fresh store;
then save the well-formed sample table and reload it. -/
theorem load_memo_and_save_reload_witness :
    load_data ⟨some ⟨COLUMNS, []⟩, some []⟩ =
      some ([], ⟨some ⟨COLUMNS, []⟩, some []⟩) ∧
    load_data (save_data [sampleRow] ⟨none, none⟩) =
      some ([sampleRow],
        ⟨some (serializeFile [sampleRow]), some [sampleRow]⟩) :=
  ⟨(load_memo_and_save_reload ⟨none, none⟩ [] ⟨some ⟨COLUMNS, []⟩, some []⟩
      (by decide)).1,
    (load_memo_and_save_reload ⟨none, none⟩ [] ⟨some ⟨COLUMNS, []⟩, some []⟩
      (by decide)).2.2.2 [sampleRow] (by decide)⟩

/-- C7 counterexample: the claim's "the next `load()` returns data
reflecting exactly the saved table" fails: saving a table whose row has
empty notes and loading it back yields a row whose notes are missing
(NaN), not the empty string. -/
theorem load_after_save_not_exact :
    (load_data (save_data [rowEmptyNotes] ⟨none, none⟩)).map Prod.fst ≠
      some [rowEmptyNotes] := by decide

/-- C9 (amended): exporting a well-formed table through `csv_bytes`
(`df.to_csv`) and loading the output back restores exactly the same
Set-Entries, every field preserved.  Well-formedness asks the string
fields to be present, non-empty and non-numeric text, the date valid and
`weight`/`volume` finite decimals — the unamended claim fails on empty
string fields (see the counterexample). -/
theorem export_reload_same_entries {t : Table} (h : WellFormedTable t) :
    parseFile (csv_bytes t) = some t :=
  parseFile_serializeFile h

/-- Witness for C9 at a concrete input. -/
theorem export_reload_same_entries_witness :
    parseFile (csv_bytes [sampleRow]) = some [sampleRow] :=
  export_reload_same_entries (by decide)

/-- C9 counterexample: a row with empty notes (which every submission
without notes produces) does not survive the export/load round trip —
the empty cell reloads as a missing value, so the claim's "every field
preserved (including string fields such as notes)" fails. -/
theorem export_reload_drops_empty_notes :
    parseFile (csv_bytes [rowEmptyNotes]) ≠ some [rowEmptyNotes] := by
  decide

theorem idMatches_true {r : Row} {ids : List String}
    (h : ∃ i, r.id = some i ∧ i ∈ ids) : idMatches r ids = true := by
  obtain ⟨i, hi, hmem⟩ := h
  rw [idMatches, hi]
  exact List.elem_iff.mpr hmem

/-- C10: every file the program writes carries the fixed 10-column
header in order: `ensure_data_file` creates it that way, and every save
(`add_workout_entry` and `delete_rows_by_ids` both write through
`save_data = serializeFile`) reproduces it.  Deleting every row of a
non-empty table saves the header-only file, and `load_data`s parse reads
that file back as the empty table. -/
theorem schema_preserved (c : Option Table) (t : Table)
    (ids : List String) :
    (ensure_data_file ⟨none, c⟩).file = some ⟨COLUMNS, []⟩ ∧
    COLUMNS.length = 10 ∧
    (serializeFile t).header = COLUMNS ∧
    (∀ s : Store, (save_data t s).file = some (serializeFile t)) ∧
    (t ≠ [] → (∀ r ∈ t, ∃ i, r.id = some i ∧ i ∈ ids) →
      (delete_rows_by_ids t ids).1 = [] ∧
      serializeFile (delete_rows_by_ids t ids).1 = ⟨COLUMNS, []⟩ ∧
      parseFile ⟨COLUMNS, []⟩ = some []) := by
  refine ⟨rfl, rfl, rfl, fun _ => rfl, ?_⟩
  intro ht hall
  have hempty : (delete_rows_by_ids t ids).1 = [] := by
    rw [delete_rows_by_ids, if_neg ht]
    rw [List.filter_eq_nil_iff]
    intro r hr
    simp [idMatches_true (hall r hr)]
  exact ⟨hempty, by rw [hempty]; rfl, rfl⟩

/-- Witness for C10 at a concrete input: deleting the only row of the
sample table leaves the header-only file. -/
theorem schema_preserved_witness :
    (delete_rows_by_ids [sampleRow] ["aaa"]).1 = [] ∧
    serializeFile (delete_rows_by_ids [sampleRow] ["aaa"]).1 =
      ⟨COLUMNS, []⟩ ∧
    parseFile ⟨COLUMNS, []⟩ = some [] :=
  (schema_preserved none [sampleRow] ["aaa"]).2.2.2.2 (by decide)
    (by decide)

theorem parseRow_of_dateOk {c : String}
    (hc : c = "" ∨ (parseDate c.data).isSome)
    (a b d e f g h i j : String) :
    ∃ r, parseRow [a, b, c, d, e, f, g, h, i, j] = some r ∧
      (parseRat f.data = none → r.reps = 0) ∧
      (parseRat g.data = none → r.weight = 0) ∧
      (parseRat j.data = none → r.volume = 0) := by
  have hdd : ∃ dd, readDateCell c = some dd := by
    rw [readDateCell]
    split
    · exact ⟨none, rfl⟩
    · rename_i hne
      cases hp : parseDate c.data with
      | some d0 => exact ⟨some d0, rfl⟩
      | none =>
        rcases hc with rfl | hc2
        · exact absurd rfl hne
        · rw [hp] at hc2
          exact absurd hc2 (by simp)
  obtain ⟨dd, hdd⟩ := hdd
  refine ⟨_, by rw [parseRow, hdd], ?_, ?_, ?_⟩
  · intro hf
    simp [coerceReps, hf]
  · intro hg
    simp [coerceFloat, hg]
  · intro hj
    simp [coerceFloat, hj]

theorem mapM_parseRow_isSome {rows : List (List String)}
    (h : ∀ row ∈ rows, (parseRow row).isSome) :
    (rows.mapM parseRow).isSome := by
  induction rows with
  | nil => rfl
  | cons row rest ih =>
    rw [List.mapM_cons]
    have h1 := h row (List.mem_cons_self row rest)
    obtain ⟨r, hr⟩ := Option.isSome_iff_exists.mp h1
    have h2 := ih (fun x hx => h x (List.mem_cons_of_mem row hx))
    obtain ⟨rs, hrs⟩ := Option.isSome_iff_exists.mp h2
    rw [hr, hrs]
    rfl

/-- C3 (amended): `load_data` never fails on malformed **numeric** cells:
every 10-cell row whose date cell is empty or parseable loads, with an
unparseable `reps` cell coerced to 0 and unparseable `weight` / `volume`
cells coerced to 0.0; a whole file of such rows loads successfully.  The
unamended "no malformed row causes the load to fail" is false: a
malformed **date** cell makes `pd.to_datetime` raise (see the
counterexample). -/
theorem load_coerces_numeric_cells :
    (∀ a b c d e f g h i j : String,
      (c = "" ∨ (parseDate c.data).isSome) →
      ∃ r, parseRow [a, b, c, d, e, f, g, h, i, j] = some r ∧
        (parseRat f.data = none → r.reps = 0) ∧
        (parseRat g.data = none → r.weight = 0) ∧
        (parseRat j.data = none → r.volume = 0)) ∧
    (∀ fl : File,
      (∀ row ∈ fl.rows, ∃ a b c d e f g h i j : String,
        row = [a, b, c, d, e, f, g, h, i, j] ∧
          (c = "" ∨ (parseDate c.data).isSome)) →
      (parseFile fl).isSome) := by
  refine ⟨fun a b c d e f g h i j hc => parseRow_of_dateOk hc a b d e f g h i j,
    ?_⟩
  intro fl hall
  rw [parseFile]
  split
  · simp
  · refine mapM_parseRow_isSome ?_
    intro row hrow
    obtain ⟨a, b, c, d, e, f, g, h, i, j, rfl, hc⟩ := hall row hrow
    obtain ⟨r, hr, -⟩ := parseRow_of_dateOk hc a b d e f g h i j
    simp [hr]

/-- Witness for C3 at a concrete input: a row whose `reps`, `weight` and
`volume` cells are all garbage loads with 0 / 0.0 / 0.0. -/
theorem load_coerces_numeric_cells_witness :
    parseFile ⟨COLUMNS,
        [["x", "t", "2024-01-15", "Bench", "1", "abc", "xyz", "kg", "n",
          "zz"]]⟩ =
      some [{ id := some "x", timestamp := some "t",
              date := some ⟨2024, 1, 15⟩, exercise := some "Bench",
              set_num := some 1, reps := 0, weight := 0,
              unit := some "kg", notes := some "n", volume := 0 }] ∧
    (parseFile ⟨COLUMNS,
        [["x", "t", "2024-01-15", "Bench", "1", "abc", "xyz", "kg", "n",
          "zz"]]⟩).isSome :=
  ⟨by decide,
    load_coerces_numeric_cells.2 _ (by
      intro row hrow
      rw [List.mem_singleton] at hrow
      subst hrow
      exact ⟨"x", "t", "2024-01-15", "Bench", "1", "abc", "xyz", "kg",
        "n", "zz", rfl, Or.inr (by decide)⟩)⟩

/-- C3 counterexample: a row whose date cell holds non-empty unparseable
text makes the load fail (pandas `to_datetime` raises), refuting "no
malformed row causes the load to fail". -/
theorem load_raises_on_bad_date :
    parseFile ⟨COLUMNS,
        [["x", "t", "BADDATE", "Bench", "1", "8", "50.0", "kg", "note",
          "400.0"]]⟩ = none := by decide

/-- Rows that agree with `r₀` on all three sort keys. -/
def sameKeysB (r₀ r : Row) : Bool :=
  (dateKey r == dateKey r₀) && (exKey r == exKey r₀) &&
    (snKey r == snKey r₀)

/-- C8: `full_history` returns all rows (a permutation of the table)
sorted by date descending, then exercise ascending, then set number
ascending, and the three-key sort is stable: the rows agreeing on all
three keys keep exactly their input order, so the display order is
deterministic.  Stated for tables whose rows carry all three sort keys
(the data-model invariant; pandas cannot sort missing object keys). -/
theorem full_history_sorted_stable (t : Table)
    (hpresent : ∀ r ∈ t,
      r.date.isSome = true ∧ r.exercise.isSome = true ∧
        r.set_num.isSome = true) :
    (full_history t).Perm t ∧
    (full_history t).Sorted histLE ∧
    (∀ r₀ : Row, (full_history t).filter (sameKeysB r₀) =
      t.filter (sameKeysB r₀)) := by
  refine ⟨List.perm_insertionSort histLE t,
    List.sorted_insertionSort histLE t, ?_⟩
  intro r₀
  apply filter_insertionSort
  intro a b ha hb
  simp only [sameKeysB, Bool.and_eq_true, beq_iff_eq] at ha hb
  obtain ⟨⟨hd1, he1⟩, hs1⟩ := ha
  obtain ⟨⟨hd2, he2⟩, hs2⟩ := hb
  exact Or.inr ⟨hd1.trans hd2.symm,
    Or.inr ⟨he1.trans he2.symm, le_of_eq (hs1.trans hs2.symm)⟩⟩

/-- A second sample row dated two days earlier, for the history
witness (the spec's descending-date scenario). -/
def rowJan10 : Row :=
  { sampleRow with id := some "bbb", date := some ⟨2024, 1, 10⟩ }

/-- Witness for C8 at a concrete input: the spec's scenario rows dated
2024-01-10 and 2024-01-12. -/
theorem full_history_sorted_stable_witness :
    (full_history [rowJan10,
      { sampleRow with id := some "ccc", date := some ⟨2024, 1, 12⟩ }]).Perm
      [rowJan10,
        { sampleRow with id := some "ccc", date := some ⟨2024, 1, 12⟩ }] :=
  (full_history_sorted_stable _ (by decide)).1

theorem filterByExercise_all (t : Table) :
    filterByExercise t (some "All") = t := by
  rw [filterByExercise, if_neg]
  simp

theorem weekLabels_length (weeks : Nat) (today : Date) :
    (weekLabels weeks today).length = weeks := by
  rw [weekLabels]
  simp

theorem weekLabels_getElem? (weeks : Nat) (today : Date) (i : Nat)
    (hi : i < weeks) :
    (weekLabels weeks today)[i]? =
      some (strftimeYWV (dateSubDays today (7 * (weeks - 1 - i)))) := by
  rw [weekLabels, List.getElem?_map,
    List.getElem?_reverse (by simpa using hi),
    List.length_range, List.getElem?_range (by omega)]
  rfl

/-- C1 (amended): on a **non-empty** table, `get_weekly_summary` with
filter "All" returns exactly `weeks` buckets; the i-th bucket (oldest to
newest) is labelled with the week of `today - (weeks-1-i)` weeks — so
the last bucket is the current week — and carries the summed volume of
the rows keyed to that label, which is 0 whenever no row matches
(zero-fill).  The unamended "regardless of how much data exists,
including an entirely empty table" is false: an empty table yields an
empty frame, not `weeks` zero buckets (see the counterexample). -/
theorem weekly_summary_exact_buckets (t : Table) (weeks : Nat)
    (today : Date) (ht : t ≠ [])
    (hord : 7 * (weeks - 1) < ymd2ord today) :
    (get_weekly_summary t weeks (some "All") today).length = weeks ∧
    (∀ i, i < weeks →
      (get_weekly_summary t weeks (some "All") today)[i]? =
        some (strftimeYWV (dateSubDays today (7 * (weeks - 1 - i))),
          sumVolume (t.filter (fun r =>
            rowWeekKey r ==
              some (strftimeYWV
                (dateSubDays today (7 * (weeks - 1 - i)))))))) ∧
    (1 ≤ weeks →
      ((get_weekly_summary t weeks (some "All")
          today)[weeks - 1]?).map Prod.fst = some (strftimeYWV today)) ∧
    (∀ i, i < weeks →
      (∀ r ∈ t, rowWeekKey r ≠
        some (strftimeYWV (dateSubDays today (7 * (weeks - 1 - i))))) →
      ((get_weekly_summary t weeks (some "All") today)[i]?).map
        Prod.snd = some 0) := by
  have hmain : get_weekly_summary t weeks (some "All") today =
      (weekLabels weeks today).map (fun l =>
        (l, sumVolume (t.filter (fun r => rowWeekKey r == some l)))) := by
    rw [get_weekly_summary, if_neg ht, filterByExercise_all]
  have hget : ∀ i, i < weeks →
      (get_weekly_summary t weeks (some "All") today)[i]? =
        some (strftimeYWV (dateSubDays today (7 * (weeks - 1 - i))),
          sumVolume (t.filter (fun r =>
            rowWeekKey r ==
              some (strftimeYWV
                (dateSubDays today (7 * (weeks - 1 - i))))))) := by
    intro i hi
    rw [hmain, List.getElem?_map, weekLabels_getElem? weeks today i hi]
    rfl
  refine ⟨?_, hget, ?_, ?_⟩
  · rw [hmain, List.length_map, weekLabels_length]
  · intro hw
    rw [hget (weeks - 1) (by omega)]
    simp only [Option.map_some']
    rw [Nat.sub_self, Nat.mul_zero, dateSubDays, if_pos rfl]
  · intro i hi hnone
    rw [hget i hi]
    simp only [Option.map_some']
    congr 1
    have hempty : t.filter (fun r =>
        rowWeekKey r ==
          some (strftimeYWV (dateSubDays today (7 * (weeks - 1 - i)))))
        = [] := by
      rw [List.filter_eq_nil_iff]
      intro r hr
      simpa using hnone r hr
    rw [hempty]
    rfl

/-- Witness for C1 at a concrete input: one row, two weeks. -/
theorem weekly_summary_exact_buckets_witness :
    (get_weekly_summary [sampleRow] 2 (some "All") ⟨2025, 10, 12⟩).length
      = 2 :=
  (weekly_summary_exact_buckets [sampleRow] 2 ⟨2025, 10, 12⟩ (by decide)
    (by decide)).1

/-- C1 counterexample: on an entirely empty table the summary is the
empty frame — 0 buckets, not the claimed 12. -/
theorem weekly_summary_empty_table :
    (get_weekly_summary [] 12 (some "All") ⟨2025, 10, 12⟩).length ≠ 12 := by
  decide

/-- Modelled from the spec: the claimed week-bucket label — the ISO
week-numbering year (`isocalendar`'s year) paired with the ISO week
number, e.g. "2024-W05". -/
def specIsoWeekLabel (d : Date) : String :=
  String.mk (printNat (isocalendar d).1 ++ '-' :: 'W' ::
    padLeft (printNat (isocalendar d).2) 2)

/-- C2 (amended): the grouping key `strftime("%Y-W%V")` pairs the
**calendar** year `%Y` of the entry's date with its ISO week number
`%V`; it coincides with the spec's ISO label exactly when the ISO
week-numbering year equals the calendar year — so a late-December /
early-January entry whose ISO year differs is bucketed under the wrong
year's label (see the counterexample). -/
theorem weekly_bucket_label_calendar_year (d : Date) :
    strftimeYWV d = String.mk (printNat d.year ++ '-' :: 'W' ::
      padLeft (printNat (isocalendar d).2) 2) ∧
    (strftimeYWV d = specIsoWeekLabel d ↔ d.year = (isocalendar d).1) := by
  refine ⟨rfl, ?_, ?_⟩
  · intro h
    have hdata := congrArg String.data h
    rw [strftimeYWV, specIsoWeekLabel, data_mk, data_mk] at hdata
    exact printNat_injective (List.append_cancel_right hdata)
  · intro h
    rw [strftimeYWV, specIsoWeekLabel, h]

/-- Witness for C2 at a concrete input: for 2026-01-01 (ISO year =
calendar year) the code's label and the spec's ISO label agree. -/
theorem weekly_bucket_label_calendar_year_witness :
    strftimeYWV ⟨2026, 1, 1⟩ = specIsoWeekLabel ⟨2026, 1, 1⟩ :=
  (weekly_bucket_label_calendar_year ⟨2026, 1, 1⟩).2.mpr (by decide)

/-- An entry dated Monday 2024-12-30, which lies in ISO week 1 of ISO
year 2025. -/
def rowDec30 : Row :=
  { sampleRow with
    date := some ⟨2024, 12, 30⟩
    exercise := some "Squat"
    reps := 2
    weight := 50
    volume := 100 }

/-- C2 counterexample: the entry dated 2024-12-30 is keyed "2024-W01"
(calendar year + ISO week number), not the claimed ISO label "2025-W01";
running the weekly summary for the two weeks ending 2025-01-03 shows the
entry's volume credited to **neither** listed bucket — in particular not
to its ISO week bucket "2025-W01", which shows 0. -/
theorem weekly_bucket_dec30_miscounted :
    strftimeYWV ⟨2024, 12, 30⟩ = "2024-W01" ∧
    specIsoWeekLabel ⟨2024, 12, 30⟩ = "2025-W01" ∧
    get_weekly_summary [rowDec30] 2 none ⟨2025, 1, 3⟩ =
      [("2024-W52", 0), ("2025-W01", 0)] := by
  decide

end GymWorkout
